import Mathlib

/-!
Verification of the pcp (Prompt Composition Processor) composition engine.

The Go source is shallowly embedded: pure helpers become Lean functions,
the OS (file system, shell, working directory) is an explicit environment,
and the two depth-first walks (validation, execution) are fuel-indexed
structurally recursive functions so that concrete runs evaluate inside the
kernel.  Machine integers are modelled as `Int` (no overflow is relevant to
any claim).  Side effects of the execution pass (commands run, file reads,
warnings, writing the final output) are recorded in an explicit effect log.
-/

namespace Pcp

/-! ## Path helpers, mirroring Go `path/filepath` (unix rules) -/

/-- Split a character list at every character satisfying `p`, keeping empty
pieces, with the semantics of Go `strings.Split` for a one-character
separator (used below with a concrete predicate; written structurally so
that the kernel can evaluate it). -/
def splitBy (p : Char → Bool) : List Char → List (List Char)
  | [] => [[]]
  | c :: rest =>
    let r := splitBy p rest
    if p c then [] :: r
    else
      match r with
      | [] => [[c]]
      | w :: ws => (c :: w) :: ws

/-- Go `strings.Split(path, "/")`. -/
def splitSlash (path : String) : List String :=
  (splitBy (fun c => c = '/') path.data).map String.mk

/-- Go `filepath.IsAbs` on unix: the path starts with a slash. -/
def isAbs (path : String) : Bool :=
  match path.data with
  | c :: _ => c = '/'
  | [] => false

/-- One step of Go `filepath.Clean`'s element processing, with the output
components kept in reverse order.  Empty and `.` elements are dropped; `..`
pops the previous element when possible, is kept when the path is relative
and nothing can be popped, and is dropped at the root of a rooted path. -/
def cleanStep (rooted : Bool) (acc : List String) (comp : String) : List String :=
  if comp = "" || comp = "." then acc
  else if comp = ".." then
    match acc with
    | [] => if rooted then [] else [".."]
    | top :: rest => if top = ".." then comp :: acc else rest
  else comp :: acc

/-- Go `filepath.Clean` for unix paths. -/
def clean (path : String) : String :=
  let rooted := isAbs path
  let comps := ((splitSlash path).foldl (cleanStep rooted) []).reverse
  let joined := String.intercalate "/" comps
  if rooted then "/" ++ joined
  else if joined = "" then "." else joined

/-- Go `filepath.Join` restricted to two elements: empty elements are
skipped and the result is cleaned. -/
def joinPaths (a b : String) : String :=
  if a = "" && b = "" then ""
  else if a = "" then clean b
  else if b = "" then clean a
  else clean (a ++ "/" ++ b)

/-- Go `filepath.Dir`: everything before the final slash, cleaned; `.` when
the path holds no slash. -/
def dirPath (path : String) : String :=
  let parts := splitSlash path
  if parts.length ≤ 1 then "."
  else
    let dir := String.intercalate "/" parts.dropLast
    if dir = "" then "/" else clean dir

/-- Go `filepath.Abs`: an absolute path is cleaned, a relative path is
joined to the working directory. -/
def absPath (cwd path : String) : String :=
  if isAbs path then clean path else joinPaths cwd path

/-! ## Word counting (`countWords` in the source) -/

/-- The whitespace class used by Go `strings.Fields` for the ASCII inputs
this development works with. -/
def goIsSpace (c : Char) : Bool :=
  c = ' ' || c = '\t' || c = '\n' || c = '\r' || c = '\x0b' || c = '\x0c'

/-- Go `strings.Fields`: maximal runs of non-whitespace bytes. -/
def goFields (s : String) : List String :=
  ((splitBy goIsSpace s.data).map String.mk).filter (fun w => w ≠ "")

/-- `countWords` from the source: `len(strings.Fields(text))`, with the
redundant empty-string fast path kept. -/
def countWords (text : String) : Nat :=
  if text = "" then 0 else (goFields text).length

/-! ## String trimming used by the renderer -/

/-- Go `strings.TrimLeft(s, "\n")`. -/
def trimLeadingNewlines (s : String) : String :=
  String.mk (s.data.dropWhile (fun c => c = '\n'))

/-- Go `strings.TrimRight(s, "\n")`. -/
def trimTrailingNewlines (s : String) : String :=
  String.mk ((s.data.reverse.dropWhile (fun c => c = '\n')).reverse)

/-! ## The document model (types.go) -/

/-- `OperationType` from the source. -/
inductive OperationType where
  | fileOp
  | promptOp
  | commandOp
  | textOp
deriving Repr, DecidableEq

/-- The `Operation` struct: four optional fields populated by YAML
unmarshalling, of which exactly one must be set for the operation to be
well formed. -/
structure Operation where
  file : Option String
  prompt : Option String
  command : Option String
  text : Option String
deriving Repr, DecidableEq

/-- A `file:` entry. -/
def opFile (p : String) : Operation := ⟨some p, none, none, none⟩

/-- A `prompt:` entry. -/
def opPrompt (p : String) : Operation := ⟨none, some p, none, none⟩

/-- A `command:` entry. -/
def opCommand (c : String) : Operation := ⟨none, none, some c, none⟩

/-- A `text:` entry. -/
def opText (t : String) : Operation := ⟨none, none, none, some t⟩

/-- `PromptFile`: the single `prompt` key.  `none` models a Go nil slice
(the key absent from the YAML), which `validatePromptFile` rejects. -/
structure PromptFile where
  prompt : Option (List Operation)
deriving Repr, DecidableEq

/-- The operation list of a parsed file; only read after validation has
ensured the `prompt` key is present. -/
def PromptFile.ops (pf : PromptFile) : List Operation := pf.prompt.getD []

/-- Outcome of running a shell command, abstracting Go's
`exec.Cmd.CombinedOutput` error: a normal exit with a status code, a spawn
failure (no process state), or termination by a signal (whose
`ExitCode()` is -1, in particular not 1). -/
inductive CmdOutcome where
  | exited (code : Nat)
  | spawnFailed
  | signaled
deriving Repr, DecidableEq

/-- Combined output and outcome of one shell command. -/
structure CmdResult where
  output : String
  outcome : CmdOutcome
deriving Repr, DecidableEq

/-- The error taxonomy of errors.go, with the `fmt.Errorf` wrappings of
parser.go kept as explicit constructors.  `commandFailed` carries the
command string together with the model of the underlying exec error.
`outOfFuel` is an artifact of the fuel-indexed embedding and corresponds
to no program behaviour. -/
inductive PcpError where
  | fileNotFound (file : String)
  | invalidYAML (file : String)
  | operationEmpty
  | operationMultiple
  | missingPromptKey
  | operationAt (index : Nat) (e : PcpError)
  | validationFailed (file : String) (e : PcpError)
  | binaryFile (file : String)
  | circularReference (file : String) (refPath : List String)
  | commandFailed (command : String) (why : CmdOutcome)
  | wordLimitExceeded (current limit : Int)
  | outOfFuel
deriving Repr, DecidableEq

/-- `Operation.GetType`: count the populated variants; zero or more than
one is a schema violation, otherwise the type is determined.  Because each
Go `if` overwrites `opType`, the value reported for a single populated
variant is the last populated one in field order. -/
def getType (op : Operation) : Except PcpError OperationType :=
  let count := (if op.file.isSome then 1 else 0) + (if op.prompt.isSome then 1 else 0)
    + (if op.command.isSome then 1 else 0) + (if op.text.isSome then 1 else 0)
  let opType : OperationType :=
    if op.text.isSome then .textOp
    else if op.command.isSome then .commandOp
    else if op.prompt.isSome then .promptOp
    else .fileOp
  if count = 0 then .error .operationEmpty
  else if count > 1 then .error .operationMultiple
  else .ok opType

/-- `Operation.GetValue`: the first populated field in declaration order,
or the empty string. -/
def getValue (op : Operation) : String :=
  match op.file with
  | some v => v
  | none =>
    match op.prompt with
    | some v => v
    | none =>
      match op.command with
      | some v => v
      | none =>
        match op.text with
        | some v => v
        | none => ""

/-- `ContentSection`: the resolved output of one operation.  The Go field
`Type` is rendered `secType` because `Type` is reserved in Lean. -/
structure ContentSection where
  source : String
  content : String
  secType : OperationType
deriving Repr, DecidableEq

/-! ## The walk context (ProcessingContext) and the OS model -/

/-- `ProcessingContext`: the mutable state of one walk.  The Go map
`visitedFiles map[string]bool` is modelled as the list of keys in
insertion order (most recent first); membership and deletion below follow
the map's semantics. -/
structure ProcessingContext where
  basePath : String
  visitedFiles : List String
  maxWords : Int
  wordCount : Int
  delimiterStyle : String
deriving Repr, DecidableEq

/-- The process environment: the working directory against which the OS
resolves relative paths (`filepath.Abs`, file opens). -/
structure Env where
  cwd : String
deriving Repr, DecidableEq

/-- One file of the modelled file system: its text content, the result of
YAML-unmarshalling it as a `PromptFile` (`none` when the bytes are not
valid YAML for that schema), and whether the binary-content heuristic
(a zero byte among the first 512) trips on it. -/
structure FileEntry where
  content : String
  yaml : Option PromptFile
  binary : Bool
deriving Repr, DecidableEq

/-- The OS model: files keyed by absolute cleaned path, and the behaviour
of each shell command string. -/
structure FileSystem where
  files : String → Option FileEntry
  commands : String → CmdResult

/-- An OS file lookup: the path handed to the OS is resolved against the
working directory. -/
def readEntry (fs : FileSystem) (env : Env) (path : String) : Option FileEntry :=
  fs.files (absPath env.cwd path)

/-- `NewProcessingContext`: the base path is the directory of the given
document. -/
def newProcessingContext (basePath : String) (maxWords : Int) (delimiterStyle : String) :
    ProcessingContext :=
  ⟨dirPath basePath, [], maxWords, 0, delimiterStyle⟩

/-- `ProcessingContext.MarkVisited`: insert the absolute form of the path. -/
def markVisited (env : Env) (ctx : ProcessingContext) (path : String) : ProcessingContext :=
  { ctx with visitedFiles := absPath env.cwd path :: ctx.visitedFiles }

/-- `ProcessingContext.IsVisited`: membership of the absolute form. -/
def isVisited (env : Env) (ctx : ProcessingContext) (path : String) : Bool :=
  ctx.visitedFiles.contains (absPath env.cwd path)

/-- `ProcessingContext.ResolvePath`: an absolute path is returned verbatim,
a relative one is joined to the current base directory. -/
def resolvePath (ctx : ProcessingContext) (path : String) : String :=
  if isAbs path then path else joinPaths ctx.basePath path

/-- `ProcessingContext.AddWords`: add to the running total first, then fail
when the total exceeds the ceiling, reporting the new total and the
ceiling. -/
def addWords (ctx : ProcessingContext) (count : Nat) : Except PcpError ProcessingContext :=
  let wc : Int := ctx.wordCount + (count : Int)
  if wc > ctx.maxWords then .error (.wordLimitExceeded wc ctx.maxWords)
  else .ok { ctx with wordCount := wc }

/-- `getVisitedPaths`: the keys of the visited map.  Go iterates the map in
unspecified order; the model fixes insertion order (most recent first). -/
def getVisitedPaths (ctx : ProcessingContext) : List String := ctx.visitedFiles

/-! ## Parsing (parser.go) -/

/-- The helper loop of `validatePromptFile`, wrapping a schema error with
the index of the offending operation. -/
def checkOpsFrom : Nat → List Operation → Except PcpError Unit
  | _, [] => .ok ()
  | i, op :: rest =>
    match getType op with
    | .error e => .error (.operationAt i e)
    | .ok _ => checkOpsFrom (i + 1) rest

/-- `validatePromptFile`: the `prompt` key must be present and every
operation must carry exactly one variant. -/
def validatePromptFile (pf : PromptFile) : Except PcpError Unit :=
  match pf.prompt with
  | none => .error .missingPromptKey
  | some ops => checkOpsFrom 0 ops

/-- `parsePromptFile`: read the file (any read failure is reported as
`FileNotFound`), unmarshal it, and validate its structure, wrapping a
validation failure with the file name. -/
def parsePromptFile (fs : FileSystem) (env : Env) (filePath : String) :
    Except PcpError PromptFile :=
  match readEntry fs env filePath with
  | none => .error (.fileNotFound filePath)
  | some entry =>
    match entry.yaml with
    | none => .error (.invalidYAML filePath)
    | some pf =>
      match validatePromptFile pf with
      | .error e => .error (.validationFailed filePath e)
      | .ok _ => .ok pf

/-- `isBinaryFile`: an open or read error yields false; otherwise the
binary heuristic on the first 512 bytes decides. -/
def isBinaryFile (fs : FileSystem) (env : Env) (filePath : String) : Bool :=
  match readEntry fs env filePath with
  | none => false
  | some entry => entry.binary

/-! ## Section headers and the renderer (processor.go, main.go) -/

/-- `formatSectionHeader`: the delimiter template for one source label;
unknown styles fall back to the xml template. -/
def formatSectionHeader (source delimiterStyle : String) : String :=
  match delimiterStyle with
  | "xml" => "\n<!-- pcp-source: " ++ source ++ " -->\n"
  | "minimal" => "\n=== PCP SOURCE: " ++ source ++ " ===\n"
  | "none" => "\n"
  | "full" => "\n----------------------------------\nBEGIN: " ++ source
      ++ "\n----------------------------------\n"
  | _ => "\n<!-- pcp-source: " ++ source ++ " -->\n"

/-- One section's contribution to the rendered output: the header (absent
for style `none`, with its leading newline trimmed for the first section)
followed by the section content. -/
def sectionPiece (delimiterStyle : String) (isFirst : Bool) (s : ContentSection) : String :=
  (if delimiterStyle ≠ "none" then
    (if isFirst then trimLeadingNewlines (formatSectionHeader s.source delimiterStyle)
     else formatSectionHeader s.source delimiterStyle)
   else "") ++ s.content

/-- `compileOutput`: render the sections in order, then trim trailing
newlines and append exactly one.  The Go version also returns an error
that is always nil. -/
def compileOutput (sections : List ContentSection) (delimiterStyle : String) : String :=
  let body :=
    match sections with
    | [] => ""
    | s :: rest =>
      sectionPiece delimiterStyle true s ++ String.join (rest.map (sectionPiece delimiterStyle false))
  trimTrailingNewlines body ++ "\n"

/-! ## The validation walk (validator.go) -/

/-- The loop body of `validatePromptFileStructure` over one document's
operations, parametrised by the recursive call for nested documents.
Only `PromptRef` operations are recursed into; `GetType`'s error value is
discarded there exactly as in the source (an erroneous operation has type
zero, which is not `PromptOp`, and is skipped — unreachable anyway after
parsing).  Note the nested path is resolved against the context's current
base path, which this walk never changes. -/
def validateOpsWith (validateNested : String → ProcessingContext → Except PcpError ProcessingContext) :
    List Operation → ProcessingContext → Except PcpError ProcessingContext
  | [], ctx => .ok ctx
  | op :: rest, ctx =>
    match getType op with
    | .ok .promptOp =>
      (match validateNested (resolvePath ctx (getValue op)) ctx with
       | .error e => .error e
       | .ok ctx' => validateOpsWith validateNested rest ctx')
    | _ => validateOpsWith validateNested rest ctx

/-- `validatePromptFileStructure`: check the absolute path against the
recursion stack, mark it, parse the document, recurse into each `prompt`
operation, and unmark on the way out (the Go `defer delete`).  The fuel
argument bounds the nesting depth of the walk and is an artifact of the
embedding; the source recurses without bound. -/
def validatePromptFileStructure (fs : FileSystem) (env : Env) :
    Nat → String → ProcessingContext → Except PcpError ProcessingContext
  | 0, _, _ => .error .outOfFuel
  | fuel + 1, filePath, ctx =>
    let absP := absPath env.cwd filePath
    if isVisited env ctx absP then
      .error (.circularReference filePath (getVisitedPaths ctx))
    else
      let ctx1 := markVisited env ctx absP
      match parsePromptFile fs env filePath with
      | .error e => .error e
      | .ok pf =>
        match validateOpsWith (validatePromptFileStructure fs env fuel) pf.ops ctx1 with
        | .error e => .error e
        | .ok ctx2 => .ok { ctx2 with visitedFiles := ctx2.visitedFiles.filter (fun q => q ≠ absP) }

/-! ## The execution walk (processor.go) -/

/-- Observable side effects of the execution pass, in program order. -/
inductive Effect where
  | ranCommand (command : String)
  | readFile (path : String)
  | warned (command : String)
  | wroteOutput (text : String)
deriving Repr, DecidableEq

/-- The state threaded through the execution walk: the processing context
plus the accumulated effect log. -/
structure ExecSt where
  ctx : ProcessingContext
  effects : List Effect
deriving Repr, DecidableEq

/-- Results of the execution walk.  A failure carries the effect log as it
stood when the walk aborted, so the theorems can speak about side effects
of failed runs. -/
abbrev ExRes (α : Type) := Except (PcpError × List Effect) (α × ExecSt)

/-- `processFileOperation`: resolve the path, fail on a missing or binary
file, read the content, charge the word budget, and label the section with
the given (unresolved) path. -/
def processFileOperation (fs : FileSystem) (env : Env) (filePath : String) (st : ExecSt) :
    ExRes ContentSection :=
  let resolvedPath := resolvePath st.ctx filePath
  match readEntry fs env resolvedPath with
  | none => .error (.fileNotFound resolvedPath, st.effects)
  | some entry =>
    if isBinaryFile fs env resolvedPath then .error (.binaryFile resolvedPath, st.effects)
    else
      let contentStr := entry.content
      let st := { st with effects := st.effects ++ [Effect.readFile resolvedPath] }
      match addWords st.ctx (countWords contentStr) with
      | .error e => .error (e, st.effects)
      | .ok ctx' => .ok (⟨filePath, contentStr, .fileOp⟩, { st with ctx := ctx' })

/-- `processCommandOperation`: run the command through the shell, capturing
combined output.  Exit status 0 succeeds; exit status 1 warns on the
diagnostic stream and keeps the output; any other outcome fails with
`CommandFailed`, discarding the output.  The word budget is charged on the
two surviving paths. -/
def processCommandOperation (fs : FileSystem) (command : String) (st : ExecSt) :
    ExRes ContentSection :=
  let res := fs.commands command
  let outputStr := res.output
  let st := { st with effects := st.effects ++ [Effect.ranCommand command] }
  let finish : ExecSt → ExRes ContentSection := fun st =>
    match addWords st.ctx (countWords outputStr) with
    | .error e => .error (e, st.effects)
    | .ok ctx' => .ok (⟨command, outputStr, .commandOp⟩, { st with ctx := ctx' })
  match res.outcome with
  | .exited 0 => finish st
  | .exited 1 => finish { st with effects := st.effects ++ [Effect.warned command] }
  | other => .error (.commandFailed command other, st.effects)

/-- `processTextOperation`: the content is the literal string verbatim; the
word budget is charged; the source label is the fixed token. -/
def processTextOperation (text : String) (st : ExecSt) : ExRes ContentSection :=
  match addWords st.ctx (countWords text) with
  | .error e => .error (e, st.effects)
  | .ok ctx' => .ok (⟨"text", text, .textOp⟩, { st with ctx := ctx' })

/-- The concatenation step of `processPromptOperation`: child sections
joined by a newline, each preceded by a nested-style header whose label is
the prompt's own given path chained to the child's source label. -/
def combineChildSections (promptPath delimiterStyle : String) (sections : List ContentSection) :
    String :=
  String.intercalate "\n"
    (sections.map (fun s =>
      formatSectionHeader (promptPath ++ "->" ++ s.source) delimiterStyle ++ s.content))

/-- The loop of `processPromptFile` and `processPromptOperation` over a
list of operations, parametrised by the single-operation processor. -/
def processOpsWith (processOp : Operation → ExecSt → ExRes ContentSection) :
    List Operation → ExecSt → ExRes (List ContentSection)
  | [], st => .ok ([], st)
  | op :: rest, st =>
    match processOp op st with
    | .error e => .error e
    | .ok (sec, st') =>
      match processOpsWith processOp rest st' with
      | .error e => .error e
      | .ok (secs, st'') => .ok (sec :: secs, st'')

/-- The body of `processPromptOperation`, parametrised by the processor
used for the nested document's operations: check the executor's own
recursion stack, parse, switch the base directory to the nested document's
directory, process the children, restore the base directory and unmark
(the Go `delete` uses the possibly-relative `resolvedPath` as the map key,
faithfully modelled by filtering on that exact string), then charge the
budget for the combined child text and yield one section. -/
def processPromptOperationWith (processOp : Operation → ExecSt → ExRes ContentSection)
    (fs : FileSystem) (env : Env) (promptPath : String) (st : ExecSt) : ExRes ContentSection :=
  let resolvedPath := resolvePath st.ctx promptPath
  if isVisited env st.ctx resolvedPath then
    .error (.circularReference resolvedPath (getVisitedPaths st.ctx), st.effects)
  else
    match parsePromptFile fs env resolvedPath with
    | .error e => .error (e, st.effects)
    | .ok pf =>
      let oldBasePath := st.ctx.basePath
      let st1 : ExecSt :=
        { st with ctx := markVisited env { st.ctx with basePath := dirPath resolvedPath } resolvedPath }
      match processOpsWith processOp pf.ops st1 with
      | .error e => .error e
      | .ok (allSections, st2) =>
        let st3 : ExecSt :=
          { st2 with ctx := { st2.ctx with
              visitedFiles := st2.ctx.visitedFiles.filter (fun q => q ≠ resolvedPath),
              basePath := oldBasePath } }
        let combinedContent := combineChildSections promptPath st3.ctx.delimiterStyle allSections
        match addWords st3.ctx (countWords combinedContent) with
        | .error e => .error (e, st3.effects)
        | .ok ctx' => .ok (⟨promptPath, combinedContent, .promptOp⟩, { st3 with ctx := ctx' })

/-- `processOperation`: dispatch on the operation type.  The fuel bounds
the prompt-nesting depth of the walk (the source recurses without bound);
nested documents are processed with one unit less. -/
def processOperation (fs : FileSystem) (env : Env) :
    Nat → Operation → ExecSt → ExRes ContentSection
  | 0, _, st => .error (.outOfFuel, st.effects)
  | fuel + 1, op, st =>
    match getType op with
    | .error e => .error (e, st.effects)
    | .ok opType =>
      let value := getValue op
      match opType with
      | .fileOp => processFileOperation fs env value st
      | .promptOp => processPromptOperationWith (processOperation fs env fuel) fs env value st
      | .commandOp => processCommandOperation fs value st
      | .textOp => processTextOperation value st

/-- `processPromptOperation` as a standalone entry point, at a given fuel. -/
def processPromptOperation (fuel : Nat) (fs : FileSystem) (env : Env)
    (promptPath : String) (st : ExecSt) : ExRes ContentSection :=
  processPromptOperationWith (processOperation fs env fuel) fs env promptPath st

/-- The operation loop at a given fuel. -/
def processOpsList (fuel : Nat) (fs : FileSystem) (env : Env)
    (ops : List Operation) (st : ExecSt) : ExRes (List ContentSection) :=
  processOpsWith (processOperation fs env fuel) ops st

/-! ## The engine entry point (main.go `processPromptFile`) -/

/-- `processPromptFile`: run the validation walk on a fresh context,
discard it, parse the root document, run the execution walk on a second
fresh context, render, and write the output (to the primary stream or the
destination file — both modelled by the `wroteOutput` effect).  The result
pairs the engine's return value with the effect log of the run. -/
def processPromptFile (fuel : Nat) (fs : FileSystem) (env : Env) (promptFile : String)
    (maxWords : Int) (delimiterStyle : String) : Except PcpError String × List Effect :=
  let ctx := newProcessingContext promptFile maxWords delimiterStyle
  match validatePromptFileStructure fs env fuel promptFile ctx with
  | .error e => (.error e, [])
  | .ok _ =>
    let ctx := newProcessingContext promptFile maxWords delimiterStyle
    match parsePromptFile fs env promptFile with
    | .error e => (.error e, [])
    | .ok pf =>
      match processOpsList fuel fs env pf.ops ⟨ctx, []⟩ with
      | .error (e, effs) => (.error e, effs)
      | .ok (sections, st) =>
        let output := compileOutput sections delimiterStyle
        (.ok output, st.effects ++ [Effect.wroteOutput output])

/-! ## Helper definitions used by the verification theorems -/

/-- The effect log of an execution-walk result, whether it succeeded or
aborted. -/
def resEffects {α : Type} : ExRes α → List Effect
  | .error pe => pe.2
  | .ok pst => pst.2.effects

/-- The effect log `effs` extends `base` by events none of which writes
output. -/
def okExtension (base effs : List Effect) : Prop :=
  ∃ new, effs = base ++ new ∧ ∀ s, Effect.wroteOutput s ∉ new

/-- The string ends with exactly one line terminator: its last character
is a newline and the character before it, when present, is not. -/
def endsWithOneNewline (s : String) : Bool :=
  match s.data.reverse with
  | [] => false
  | c :: rest =>
    c = '\n' && (match rest with
      | [] => true
      | d :: _ => d ≠ '\n')

/-- The section produced for a `text` operation with content `t`. -/
def textSec (t : String) : ContentSection := ⟨"text", t, .textOp⟩

/-- A file system with no files, where every command succeeds silently. -/
def emptyFS : FileSystem := ⟨fun _ => none, fun _ => ⟨"", .exited 0⟩⟩

/-- A working directory for runs rooted at `/a`. -/
def envRootA : Env := ⟨"/a"⟩

/-- A working directory for runs rooted at `/d`. -/
def envRootD : Env := ⟨"/d"⟩

/-- A working directory for runs rooted at `/w`. -/
def envRootW : Env := ⟨"/w"⟩

/-- A well-formed acyclic document tree spanning two directories:
`/a/main.yml` references `sub/b.yml`, and `/a/sub/b.yml` references
`c.yml`, which lives next to it at `/a/sub/c.yml`.  There is no file at
`/a/c.yml`. -/
def nestedTreeFS : FileSystem :=
  ⟨fun p =>
    if p = "/a/main.yml" then some ⟨"", some ⟨some [opText "intro", opPrompt "sub/b.yml"]⟩, false⟩
    else if p = "/a/sub/b.yml" then some ⟨"", some ⟨some [opPrompt "c.yml", opText "end"]⟩, false⟩
    else if p = "/a/sub/c.yml" then some ⟨"", some ⟨some [opText "leaf"]⟩, false⟩
    else none,
   fun _ => ⟨"", .spawnFailed⟩⟩

/-- Two documents referencing each other across directories with relative
paths: `/a/main.yml` references `sub/b.yml` and also declares a command;
`/a/sub/b.yml` references `../main.yml` (which resolves to `/a/main.yml`
from its own directory) and also declares a file read. -/
def cycleCrossFS : FileSystem :=
  ⟨fun p =>
    if p = "/a/main.yml" then some ⟨"", some ⟨some [opCommand "boom", opPrompt "sub/b.yml"]⟩, false⟩
    else if p = "/a/sub/b.yml" then some ⟨"", some ⟨some [opPrompt "../main.yml", opFile "x.txt"]⟩, false⟩
    else if p = "/a/sub/x.txt" then some ⟨"secret", none, false⟩
    else none,
   fun _ => ⟨"", .exited 0⟩⟩

/-- Two documents in the same directory referencing each other, each also
declaring a side-effecting operation. -/
def cycleSameDirFS : FileSystem :=
  ⟨fun p =>
    if p = "/d/a.yml" then some ⟨"", some ⟨some [opCommand "boom", opPrompt "b.yml"]⟩, false⟩
    else if p = "/d/b.yml" then some ⟨"", some ⟨some [opPrompt "a.yml", opFile "f.txt"]⟩, false⟩
    else if p = "/d/f.txt" then some ⟨"data", none, false⟩
    else none,
   fun _ => ⟨"", .exited 0⟩⟩

/-- A file system holding one flat document at `/w/doc.yml` consisting of
the given text operations. -/
def flatTextFS (texts : List String) : FileSystem :=
  ⟨fun p => if p = "/w/doc.yml" then some ⟨"", some ⟨some (texts.map opText)⟩, false⟩ else none,
   fun _ => ⟨"", .exited 0⟩⟩

/-- A file system holding one nested document at `/w/sub.yml` consisting
of the given text operations, for processing as a `prompt` operation from
a document based at `/w`. -/
def nestedTextFS (texts : List String) : FileSystem :=
  ⟨fun p => if p = "/w/sub.yml" then some ⟨"", some ⟨some (texts.map opText)⟩, false⟩ else none,
   fun _ => ⟨"", .exited 0⟩⟩

/-! ## Basic evaluation lemmas -/

theorem getType_opText (t : String) : getType (opText t) = .ok .textOp := rfl

theorem getType_opPrompt (p : String) : getType (opPrompt p) = .ok .promptOp := rfl

theorem addWords_le (ctx : ProcessingContext) (c : Nat)
    (h : ctx.wordCount + (c : Int) ≤ ctx.maxWords) :
    addWords ctx c = .ok { ctx with wordCount := ctx.wordCount + (c : Int) } := by
  unfold addWords
  rw [if_neg (by omega)]

theorem addWords_gt (ctx : ProcessingContext) (c : Nat)
    (h : ctx.maxWords < ctx.wordCount + (c : Int)) :
    addWords ctx c = .error (.wordLimitExceeded (ctx.wordCount + (c : Int)) ctx.maxWords) := by
  unfold addWords
  rw [if_pos (by omega)]

/-! ## C8: section header templates -/

/-- C8: for every source label S the header produced for S is exactly the
selected style's template (xml, minimal, full, none as listed in the
claim), and every unknown style value yields the xml template. -/
theorem sectionHeaderTemplates (S : String) :
    formatSectionHeader S "xml" = "\n<!-- pcp-source: " ++ S ++ " -->\n"
    ∧ formatSectionHeader S "minimal" = "\n=== PCP SOURCE: " ++ S ++ " ===\n"
    ∧ formatSectionHeader S "full" =
        "\n----------------------------------\nBEGIN: " ++ S ++ "\n----------------------------------\n"
    ∧ formatSectionHeader S "none" = "\n"
    ∧ ∀ style : String, style ∉ ["xml", "minimal", "full", "none"] →
        formatSectionHeader S style = "\n<!-- pcp-source: " ++ S ++ " -->\n" := by
  refine ⟨rfl, rfl, rfl, rfl, ?_⟩
  intro style h
  have h1 : style ≠ "xml" := fun e => h (by simp [e])
  have h2 : style ≠ "minimal" := fun e => h (by simp [e])
  have h3 : style ≠ "full" := fun e => h (by simp [e])
  have h4 : style ≠ "none" := fun e => h (by simp [e])
  unfold formatSectionHeader
  split
  · exact absurd rfl h1
  · exact absurd rfl h2
  · exact absurd rfl h4
  · exact absurd rfl h3
  · rfl

/-- Witness for C8 at a concrete unknown style. -/
theorem sectionHeaderTemplates_witness :
    formatSectionHeader "S" "fancy" = "\n<!-- pcp-source: S -->\n" :=
  (sectionHeaderTemplates "S").2.2.2.2 "fancy" (by decide)

/-! ## C10: absolute paths resolve to themselves -/

/-- C10: path resolution leaves an absolute path untouched whatever the
current base directory; a relative path is joined to the base directory. -/
theorem resolvePathAbsoluteVerbatim (p : String) :
    (isAbs p = true → ∀ ctx : ProcessingContext, resolvePath ctx p = p)
    ∧ (isAbs p = false → ∀ ctx : ProcessingContext, resolvePath ctx p = joinPaths ctx.basePath p) := by
  constructor <;> intro h ctx <;> simp [resolvePath, h]

/-- Witness for C10: an absolute path resolves verbatim under an unrelated
base directory, and a relative one is joined to it. -/
theorem resolvePathAbsoluteVerbatim_witness :
    resolvePath ⟨"/other/base", [], 100, 0, "xml"⟩ "/abs/x.txt" = "/abs/x.txt"
    ∧ resolvePath ⟨"/other/base", [], 100, 0, "xml"⟩ "rel/x.txt" = "/other/base/rel/x.txt" :=
  ⟨(resolvePathAbsoluteVerbatim "/abs/x.txt").1 rfl _,
   by rw [(resolvePathAbsoluteVerbatim "rel/x.txt").2 rfl]; rfl⟩

/-! ## C4: command exit-status policy -/

/-- C4: a command exiting 0 yields a section holding its combined output;
a command exiting 1 yields the same section plus a diagnostic warning and
processing continues; any other outcome (exit status neither 0 nor 1,
spawn failure, signal termination) fails with `CommandFailed` carrying the
command string and the underlying error, and the captured output appears
in no section.  The budget hypothesis keeps the word-limit check, which
runs after the policy, out of the way. -/
theorem commandExitStatusPolicy (fs : FileSystem) (command : String) (st : ExecSt)
    (hbudget : st.ctx.wordCount + (countWords (fs.commands command).output : Int)
      ≤ st.ctx.maxWords) :
    ((fs.commands command).outcome = .exited 0 →
      processCommandOperation fs command st =
        .ok (⟨command, (fs.commands command).output, .commandOp⟩,
          ⟨{ st.ctx with
              wordCount := st.ctx.wordCount + (countWords (fs.commands command).output : Int) },
           st.effects ++ [Effect.ranCommand command]⟩))
    ∧ ((fs.commands command).outcome = .exited 1 →
      processCommandOperation fs command st =
        .ok (⟨command, (fs.commands command).output, .commandOp⟩,
          ⟨{ st.ctx with
              wordCount := st.ctx.wordCount + (countWords (fs.commands command).output : Int) },
           st.effects ++ [Effect.ranCommand command, Effect.warned command]⟩))
    ∧ (∀ code : Nat, code ≠ 0 → code ≠ 1 → (fs.commands command).outcome = .exited code →
      processCommandOperation fs command st =
        .error (.commandFailed command (.exited code), st.effects ++ [Effect.ranCommand command]))
    ∧ ((fs.commands command).outcome = .spawnFailed →
      processCommandOperation fs command st =
        .error (.commandFailed command .spawnFailed, st.effects ++ [Effect.ranCommand command]))
    ∧ ((fs.commands command).outcome = .signaled →
      processCommandOperation fs command st =
        .error (.commandFailed command .signaled, st.effects ++ [Effect.ranCommand command])) := by
  refine ⟨?_, ?_, ?_, ?_, ?_⟩
  · intro h
    simp only [processCommandOperation, h, addWords_le _ _ hbudget]
  · intro h
    simp only [processCommandOperation, h, addWords_le _ _ hbudget, List.append_assoc,
      List.cons_append, List.nil_append]
  · intro code h0 h1 h
    obtain ⟨m, rfl⟩ : ∃ m, code = m + 2 := ⟨code - 2, by omega⟩
    simp only [processCommandOperation, h]
  · intro h
    simp only [processCommandOperation, h]
  · intro h
    simp only [processCommandOperation, h]

/-- Witness for C4: a command exiting 1 with output keeps the output and a
warning is logged. -/
theorem commandExitStatusPolicy_witness :
    processCommandOperation ⟨fun _ => none, fun _ => ⟨"output", .exited 1⟩⟩ "cmd"
      ⟨⟨"/d", [], 100, 0, "xml"⟩, []⟩ =
      .ok (⟨"cmd", "output", .commandOp⟩,
        ⟨⟨"/d", [], 100, 1, "xml"⟩, [Effect.ranCommand "cmd", Effect.warned "cmd"]⟩) := by
  have h := (commandExitStatusPolicy ⟨fun _ => none, fun _ => ⟨"output", .exited 1⟩⟩ "cmd"
    ⟨⟨"/d", [], 100, 0, "xml"⟩, []⟩ (by decide)).2.1 rfl
  simpa using h

/-! ## C7: section terminators -/

theorem dropWhile_head_false (p : Char → Bool) (l : List Char) (d : Char) (rest : List Char)
    (h : l.dropWhile p = d :: rest) : p d = false := by
  induction l with
  | nil => simp [List.dropWhile] at h
  | cons c cs ih =>
    rw [List.dropWhile_cons] at h
    by_cases hc : p c
    · rw [if_pos hc] at h
      exact ih h
    · rw [if_neg hc] at h
      cases h
      simpa using hc

theorem endsWithOneNewline_trim (body : String) :
    endsWithOneNewline (trimTrailingNewlines body ++ "\n") = true := by
  have hdata : (trimTrailingNewlines body ++ "\n").data
      = (body.data.reverse.dropWhile (fun c => c = '\n')).reverse ++ ['\n'] := rfl
  unfold endsWithOneNewline
  rw [hdata, List.reverse_append, List.reverse_reverse]
  simp only [List.reverse_cons, List.reverse_nil, List.nil_append, List.singleton_append]
  cases hl : body.data.reverse.dropWhile (fun c => c = '\n') with
  | nil => decide
  | cons d ds =>
    have hd := dropWhile_head_false _ _ _ _ hl
    simp at hd
    simp [hd]

/-- C7 counterexample: the claim that every ContentSection's content ends
with exactly one line terminator is false — the Executor yields a text
section whose content ends with no line terminator at all. -/
theorem sectionTerminator_counterexample :
    processOperation emptyFS envRootD 1 (opText "hello")
        ⟨newProcessingContext "/d/doc.yml" 100 "xml", []⟩ =
      .ok (⟨"text", "hello", .textOp⟩, ⟨⟨"/d", [], 100, 1, "xml"⟩, []⟩)
    ∧ "hello".data.getLast? ≠ some '\n' := ⟨rfl, by decide⟩

/-- C7 as amended: a section's content is the source text verbatim (for a
text operation) and need not end with a line terminator; it is the
renderer's final output that always ends with exactly one line
terminator. -/
theorem sectionContentVerbatimOneFinalNewline :
    (∀ (t : String) (st : ExecSt) (sec : ContentSection) (st' : ExecSt),
        processTextOperation t st = .ok (sec, st') → sec.content = t)
    ∧ ∀ (sections : List ContentSection) (style : String),
        endsWithOneNewline (compileOutput sections style) = true := by
  constructor
  · intro t st sec st' h
    unfold processTextOperation at h
    cases haw : addWords st.ctx (countWords t) with
    | error e => rw [haw] at h; simp at h
    | ok ctx' =>
      rw [haw] at h
      cases h
      rfl
  · intro sections style
    show endsWithOneNewline (trimTrailingNewlines _ ++ "\n") = true
    exact endsWithOneNewline_trim _

/-- Witness for the amended C7, applying both parts at concrete inputs. -/
theorem sectionContentVerbatimOneFinalNewline_witness :
    (textSec "hi").content = "hi"
    ∧ endsWithOneNewline (compileOutput [textSec "hi"] "xml") = true :=
  ⟨sectionContentVerbatimOneFinalNewline.1 "hi" ⟨⟨"/d", [], 100, 0, "xml"⟩, []⟩
      (textSec "hi") ⟨⟨"/d", [], 100, 1, "xml"⟩, []⟩ rfl,
   sectionContentVerbatimOneFinalNewline.2 [textSec "hi"] "xml"⟩

/-! ## C1: base-directory handling of the validation walk -/

/-- C1: the claim fails on the code.  In `nestedTreeFS` the document at
directory `/a/sub` contains `prompt: "c.yml"`; joining gives
`/a/sub/c.yml`, where a document exists.  The validation walk never
switches its base directory, resolves the reference against the root
directory `/a` instead, and fails with `FileNotFound "/a/c.yml"` — it
does not visit `/a/sub/c.yml`. -/
theorem validationBaseDirNotSwitched :
    joinPaths "/a/sub" "c.yml" = "/a/sub/c.yml"
    ∧ (∃ entry, nestedTreeFS.files "/a/sub/c.yml" = some entry)
    ∧ nestedTreeFS.files "/a/c.yml" = none
    ∧ validatePromptFileStructure nestedTreeFS envRootA 5 "/a/main.yml"
        (newProcessingContext "/a/main.yml" 1000 "xml")
      = .error (.fileNotFound "/a/c.yml") :=
  ⟨rfl, ⟨_, rfl⟩, rfl, rfl⟩

/-! ## C2: mutual references and side effects -/

/-- C2: the claim fails on the code.  In `cycleCrossFS`, `/a/main.yml`
references `/a/sub/b.yml` and that document references `/a/main.yml` back
(its `../main.yml` joined to its own directory is `/a/main.yml`), yet the
engine fails with `FileNotFound "/main.yml"` — the validation walk resolves
the relative back-reference against the root directory — not with
`CircularReference`.  The run still has an empty effect log (no command
ran, no file-operation read occurred).  For two documents in the same
directory (`cycleSameDirFS`) the engine does fail with
`CircularReference`, again with an empty effect log. -/
theorem cycleDetectionAndSideEffects :
    joinPaths "/a/sub" "../main.yml" = "/a/main.yml"
    ∧ processPromptFile 5 cycleCrossFS envRootA "/a/main.yml" 1000 "xml"
        = (.error (.fileNotFound "/main.yml"), [])
    ∧ processPromptFile 5 cycleSameDirFS envRootD "/d/a.yml" 1000 "xml"
        = (.error (.circularReference "/d/a.yml" ["/d/b.yml", "/d/a.yml"]), []) :=
  ⟨rfl, rfl, rfl⟩

/-! ## C6: well-formed acyclic trees -/

/-- C6: the claim fails on the code.  `nestedTreeFS` is a well-formed
document tree whose prompt reference graph has no cycle: the execution
walk on the root document's operations succeeds and yields exactly one
ContentSection per operation in declaration order, with the nested
document expanded in place.  Yet the engine as a whole fails, because the
validation walk misresolves the depth-two reference `c.yml` against the
root directory. -/
theorem acyclicTreeValidatorStillFails :
    processOpsList 5 nestedTreeFS envRootA [opText "intro", opPrompt "sub/b.yml"]
        ⟨newProcessingContext "/a/main.yml" 1000 "xml", []⟩
      = .ok ([⟨"text", "intro", .textOp⟩,
              ⟨"sub/b.yml",
               "\n<!-- pcp-source: sub/b.yml->c.yml -->\n\n<!-- pcp-source: c.yml->text -->\nleaf\n\n<!-- pcp-source: sub/b.yml->text -->\nend",
               .promptOp⟩],
             ⟨⟨"/a", [], 1000, 22, "xml"⟩, []⟩)
    ∧ (processPromptFile 5 nestedTreeFS envRootA "/a/main.yml" 1000 "xml").fst
        = .error (.fileNotFound "/a/c.yml") :=
  ⟨rfl, rfl⟩

/-! ## Evaluation of a run over text operations (used by C3 and C9) -/

theorem processOperation_text (fs : FileSystem) (env : Env) (fuel : Nat) (t : String)
    (st : ExecSt) :
    processOperation fs env (fuel + 1) (opText t) st = processTextOperation t st := rfl

theorem processTextOps_ok (fs : FileSystem) (env : Env) (fuel : Nat) (texts : List String)
    (st : ExecSt)
    (h : st.ctx.wordCount + ((texts.map countWords).sum : Int) ≤ st.ctx.maxWords) :
    processOpsWith (processOperation fs env (fuel + 1)) (texts.map opText) st =
      .ok (texts.map textSec,
        ⟨{ st.ctx with wordCount := st.ctx.wordCount + ((texts.map countWords).sum : Int) },
         st.effects⟩) := by
  induction texts generalizing st with
  | nil =>
    simp [processOpsWith]
  | cons t rest ih =>
    have hc : st.ctx.wordCount + (countWords t : Int) ≤ st.ctx.maxWords := by
      simp only [List.map_cons, List.sum_cons, Nat.cast_add] at h
      omega
    have hrest : ({ st.ctx with wordCount := st.ctx.wordCount + (countWords t : Int) } :
        ProcessingContext).wordCount + ((rest.map countWords).sum : Int)
        ≤ ({ st.ctx with wordCount := st.ctx.wordCount + (countWords t : Int) } :
        ProcessingContext).maxWords := by
      simp only [List.map_cons, List.sum_cons, Nat.cast_add] at h
      simp only []
      omega
    simp only [List.map_cons, processOpsWith, processOperation_text, processTextOperation,
      addWords_le _ _ hc,
      ih ⟨{ st.ctx with wordCount := st.ctx.wordCount + (countWords t : Int) }, st.effects⟩ hrest,
      textSec, List.sum_cons, Nat.cast_add, add_assoc]

theorem processTextOps_exceed (fs : FileSystem) (env : Env) (fuel : Nat) (texts : List String)
    (st : ExecSt) (T : Int)
    (hle : st.ctx.wordCount ≤ st.ctx.maxWords)
    (hsum : st.ctx.wordCount + ((texts.map countWords).sum : Int) = T)
    (hmax : st.ctx.maxWords = T - 1) :
    processOpsWith (processOperation fs env (fuel + 1)) (texts.map opText) st =
      .error (.wordLimitExceeded T (T - 1), st.effects) := by
  induction texts generalizing st with
  | nil =>
    exfalso
    simp only [List.map_nil, List.sum_nil, Nat.cast_zero, add_zero] at hsum
    omega
  | cons t rest ih =>
    by_cases hover : st.ctx.maxWords < st.ctx.wordCount + (countWords t : Int)
    · have hT : st.ctx.wordCount + (countWords t : Int) = T := by
        simp only [List.map_cons, List.sum_cons, Nat.cast_add] at hsum
        omega
      simp only [List.map_cons, processOpsWith, processOperation_text, processTextOperation,
        addWords_gt _ _ hover, hT, hmax]
    · push_neg at hover
      have hrest1 : ({ st.ctx with wordCount := st.ctx.wordCount + (countWords t : Int) } :
          ProcessingContext).wordCount
          ≤ ({ st.ctx with wordCount := st.ctx.wordCount + (countWords t : Int) } :
          ProcessingContext).maxWords := hover
      have hrest2 : ({ st.ctx with wordCount := st.ctx.wordCount + (countWords t : Int) } :
          ProcessingContext).wordCount + ((rest.map countWords).sum : Int) = T := by
        simp only [List.map_cons, List.sum_cons, Nat.cast_add] at hsum
        simp only []
        omega
      simp only [List.map_cons, processOpsWith, processOperation_text, processTextOperation,
        addWords_le _ _ hover,
        ih ⟨{ st.ctx with wordCount := st.ctx.wordCount + (countWords t : Int) }, st.effects⟩
          hrest1 hrest2 hmax]

theorem checkOpsFrom_textOps (i : Nat) (texts : List String) :
    checkOpsFrom i (texts.map opText) = .ok () := by
  induction texts generalizing i with
  | nil => rfl
  | cons t rest ih => simp [checkOpsFrom, getType_opText, ih]

theorem validateOpsWith_textOps
    (f : String → ProcessingContext → Except PcpError ProcessingContext)
    (texts : List String) (ctx : ProcessingContext) :
    validateOpsWith f (texts.map opText) ctx = .ok ctx := by
  induction texts with
  | nil => rfl
  | cons t rest ih => simp [validateOpsWith, getType_opText, ih]

theorem parse_flatTextFS (texts : List String) :
    parsePromptFile (flatTextFS texts) envRootW "/w/doc.yml" = .ok ⟨some (texts.map opText)⟩ := by
  have hre : readEntry (flatTextFS texts) envRootW "/w/doc.yml"
      = some ⟨"", some ⟨some (texts.map opText)⟩, false⟩ := rfl
  simp [parsePromptFile, hre, validatePromptFile, checkOpsFrom_textOps]

theorem validate_flatTextFS (fuel : Nat) (texts : List String) (mw : Int) (style : String) :
    validatePromptFileStructure (flatTextFS texts) envRootW (fuel + 1) "/w/doc.yml"
      (newProcessingContext "/w/doc.yml" mw style)
    = .ok (newProcessingContext "/w/doc.yml" mw style) := by
  simp only [validatePromptFileStructure, parse_flatTextFS]
  simp only [isVisited, newProcessingContext, getVisitedPaths, markVisited, PromptFile.ops]
  simp [validateOpsWith_textOps]
  rfl

theorem processPromptFile_flat (fuel : Nat) (texts : List String) (mw : Int) (style : String) :
    processPromptFile (fuel + 1) (flatTextFS texts) envRootW "/w/doc.yml" mw style
    = match processOpsWith (processOperation (flatTextFS texts) envRootW (fuel + 1))
          (texts.map opText) ⟨⟨"/w", [], mw, 0, style⟩, []⟩ with
      | .error (e, effs) => (.error e, effs)
      | .ok (sections, st) =>
        (.ok (compileOutput sections style),
         st.effects ++ [Effect.wroteOutput (compileOutput sections style)]) := by
  simp only [processPromptFile, validate_flatTextFS, parse_flatTextFS, processOpsList,
    PromptFile.ops, Option.getD]
  rfl

/-! ## C3: the word budget boundary -/

/-- C3: for a document of text operations totalling exactly N words (N at
least one), running the engine with budget N succeeds, and running it with
budget N-1 fails with `WordLimitExceeded` reporting a current total of
exactly N and a limit of N-1. -/
theorem wordBudgetBoundary (fuel : Nat) (texts : List String) (style : String) (N : Int)
    (hN : N = ((texts.map countWords).sum : Int)) (hpos : 0 < N) :
    (∃ out effs,
      processPromptFile (fuel + 1) (flatTextFS texts) envRootW "/w/doc.yml" N style
        = (.ok out, effs))
    ∧ (processPromptFile (fuel + 1) (flatTextFS texts) envRootW "/w/doc.yml" (N - 1) style).fst
        = .error (.wordLimitExceeded N (N - 1)) := by
  constructor
  · refine ⟨compileOutput (texts.map textSec) style,
      [] ++ [Effect.wroteOutput (compileOutput (texts.map textSec) style)], ?_⟩
    rw [processPromptFile_flat,
      processTextOps_ok (flatTextFS texts) envRootW fuel texts ⟨⟨"/w", [], N, 0, style⟩, []⟩
        (by simp only []; omega)]
  · rw [processPromptFile_flat,
      processTextOps_exceed (flatTextFS texts) envRootW fuel texts ⟨⟨"/w", [], N - 1, 0, style⟩, []⟩
        N (by simp only []; omega) (by simp only []; omega) rfl]

/-- Witness for C3: a two-operation document of three words succeeds with
budget 3 and fails with budget 2 reporting current=3, limit=2. -/
theorem wordBudgetBoundary_witness :
    (∃ out effs,
      processPromptFile 1 (flatTextFS ["alpha", "beta gamma"]) envRootW "/w/doc.yml" 3 "xml"
        = (.ok out, effs))
    ∧ (processPromptFile 1 (flatTextFS ["alpha", "beta gamma"]) envRootW "/w/doc.yml" (3 - 1)
        "xml").fst = .error (.wordLimitExceeded 3 (3 - 1)) :=
  wordBudgetBoundary 0 ["alpha", "beta gamma"] "xml" 3 (by decide) (by decide)

/-! ## C9: double charging of nested documents -/

theorem parse_nestedTextFS (texts : List String) :
    parsePromptFile (nestedTextFS texts) envRootW "/w/sub.yml" = .ok ⟨some (texts.map opText)⟩ := by
  have hre : readEntry (nestedTextFS texts) envRootW "/w/sub.yml"
      = some ⟨"", some ⟨some (texts.map opText)⟩, false⟩ := rfl
  simp [parsePromptFile, hre, validatePromptFile, checkOpsFrom_textOps]

/-- C9: a `prompt` operation charges the word budget twice for the nested
document — each child operation charges its own word count as it is
processed, and the parent then charges the word count of the concatenated
child text (which also contains the nested section headers) again, so when
the children contribute at least one word the running total charged
strictly exceeds the word count of the produced section's content. -/
theorem promptOperationDoubleCharge (fuel : Nat) (texts : List String) (style : String)
    (w m : Int) (effs : List Effect)
    (hbudget : w + ((texts.map countWords).sum : Int)
        + (countWords (combineChildSections "sub.yml" style (texts.map textSec)) : Int) ≤ m) :
    processPromptOperation (fuel + 1) (nestedTextFS texts) envRootW "sub.yml"
        ⟨⟨"/w", [], m, w, style⟩, effs⟩
      = .ok (⟨"sub.yml", combineChildSections "sub.yml" style (texts.map textSec), .promptOp⟩,
          ⟨⟨"/w", [], m,
            w + ((texts.map countWords).sum : Int)
              + (countWords (combineChildSections "sub.yml" style (texts.map textSec)) : Int),
            style⟩, effs⟩)
    ∧ (1 ≤ ((texts.map countWords).sum : Int) →
        w + (countWords (combineChildSections "sub.yml" style (texts.map textSec)) : Int)
          < w + ((texts.map countWords).sum : Int)
            + (countWords (combineChildSections "sub.yml" style (texts.map textSec)) : Int)) := by
  refine ⟨?_, fun h => by omega⟩
  have hres : resolvePath (⟨"/w", [], m, w, style⟩ : ProcessingContext) "sub.yml"
      = "/w/sub.yml" := rfl
  have hvis : isVisited envRootW (⟨"/w", [], m, w, style⟩ : ProcessingContext) "/w/sub.yml"
      = false := rfl
  have hsum : (⟨⟨"/w", ["/w/sub.yml"], m, w, style⟩, effs⟩ : ExecSt).ctx.wordCount
      + ((texts.map countWords).sum : Int)
      ≤ (⟨⟨"/w", ["/w/sub.yml"], m, w, style⟩, effs⟩ : ExecSt).ctx.maxWords := by
    simp only []
    omega
  simp only [processPromptOperation, processPromptOperationWith, hres, hvis, parse_nestedTextFS,
    Bool.false_eq_true, if_false, markVisited, PromptFile.ops, Option.getD]
  have hdir : dirPath "/w/sub.yml" = "/w" := rfl
  have habs : absPath envRootW.cwd "/w/sub.yml" = "/w/sub.yml" := rfl
  rw [hdir, habs, processTextOps_ok (nestedTextFS texts) envRootW fuel texts
    ⟨⟨"/w", ["/w/sub.yml"], m, w, style⟩, effs⟩ hsum]
  have hfil : List.filter (fun q => decide (q ≠ "/w/sub.yml")) ["/w/sub.yml"] = [] := rfl
  have hadd : addWords (⟨"/w", [], m, w + ((texts.map countWords).sum : Int), style⟩ :
      ProcessingContext)
      (countWords (combineChildSections "sub.yml" style (texts.map textSec)))
      = .ok ⟨"/w", [], m, w + ((texts.map countWords).sum : Int)
          + (countWords (combineChildSections "sub.yml" style (texts.map textSec)) : Int), style⟩ := by
    rw [addWords_le]
    simp only []
    omega
  simp only [hfil, hadd]

/-- Witness for C9: with one child holding one word, the total charged for
the nested document strictly exceeds the word count of its section
content. -/
theorem promptOperationDoubleCharge_witness :
    (0 : Int) + (countWords (combineChildSections "sub.yml" "xml" (["hello"].map textSec)) : Int)
      < 0 + ((["hello"].map countWords).sum : Int)
        + (countWords (combineChildSections "sub.yml" "xml" (["hello"].map textSec)) : Int) :=
  (promptOperationDoubleCharge 0 ["hello"] "xml" 0 1000 [] (by decide)).2 (by decide)

/-! ## C5: failures produce no output -/

theorem okExtension_self (base : List Effect) : okExtension base base :=
  ⟨[], by simp, by simp⟩

theorem okExtension_trans {a b c : List Effect} (h1 : okExtension a b) (h2 : okExtension b c) :
    okExtension a c := by
  obtain ⟨n1, rfl, hn1⟩ := h1
  obtain ⟨n2, rfl, hn2⟩ := h2
  exact ⟨n1 ++ n2, by simp, fun s hs => ((List.mem_append.1 hs).elim (hn1 s) (hn2 s))⟩

theorem effects_fileOp (fs : FileSystem) (env : Env) (p : String) (st : ExecSt) :
    okExtension st.effects (resEffects (processFileOperation fs env p st)) := by
  simp only [processFileOperation]
  split
  · exact ⟨[], by simp [resEffects], by simp⟩
  · split
    · exact ⟨[], by simp [resEffects], by simp⟩
    · split
      · exact ⟨[Effect.readFile (resolvePath st.ctx p)], by simp [resEffects], by simp⟩
      · exact ⟨[Effect.readFile (resolvePath st.ctx p)], by simp [resEffects], by simp⟩

theorem effects_commandOp (fs : FileSystem) (c : String) (st : ExecSt) :
    okExtension st.effects (resEffects (processCommandOperation fs c st)) := by
  simp only [processCommandOperation]
  split
  · split
    · exact ⟨[Effect.ranCommand c], by simp [resEffects], by simp⟩
    · exact ⟨[Effect.ranCommand c], by simp [resEffects], by simp⟩
  · split
    · exact ⟨[Effect.ranCommand c, Effect.warned c], by simp [resEffects], by simp⟩
    · exact ⟨[Effect.ranCommand c, Effect.warned c], by simp [resEffects], by simp⟩
  · exact ⟨[Effect.ranCommand c], by simp [resEffects], by simp⟩

theorem effects_textOp (t : String) (st : ExecSt) :
    okExtension st.effects (resEffects (processTextOperation t st)) := by
  simp only [processTextOperation]
  split
  · exact ⟨[], by simp [resEffects], by simp⟩
  · exact ⟨[], by simp [resEffects], by simp⟩

theorem effects_opsWith (processOp : Operation → ExecSt → ExRes ContentSection)
    (h : ∀ op st, okExtension st.effects (resEffects (processOp op st))) :
    ∀ (ops : List Operation) (st : ExecSt),
      okExtension st.effects (resEffects (processOpsWith processOp ops st)) := by
  intro ops
  induction ops with
  | nil => intro st; exact ⟨[], by simp [processOpsWith, resEffects], by simp⟩
  | cons op rest ih =>
    intro st
    unfold processOpsWith
    cases hop : processOp op st with
    | error e =>
      have h1 := h op st
      rw [hop] at h1
      exact h1
    | ok v =>
      obtain ⟨sec, st'⟩ := v
      have h1 := h op st
      rw [hop] at h1
      have h2 := ih st'
      dsimp only
      cases hrest : processOpsWith processOp rest st' with
      | error e' =>
        rw [hrest] at h2
        exact okExtension_trans h1 h2
      | ok v' =>
        obtain ⟨secs, st''⟩ := v'
        rw [hrest] at h2
        exact okExtension_trans h1 h2

theorem effects_promptWith (processOp : Operation → ExecSt → ExRes ContentSection)
    (fs : FileSystem) (env : Env) (p : String) (st : ExecSt)
    (h : ∀ op st, okExtension st.effects (resEffects (processOp op st))) :
    okExtension st.effects (resEffects (processPromptOperationWith processOp fs env p st)) := by
  simp only [processPromptOperationWith]
  split
  · exact ⟨[], by simp [resEffects], by simp⟩
  · split
    · exact ⟨[], by simp [resEffects], by simp⟩
    · rename_i pf hpf
      have h2 := effects_opsWith processOp h pf.ops
        ⟨markVisited env { st.ctx with basePath := dirPath (resolvePath st.ctx p) }
          (resolvePath st.ctx p), st.effects⟩
      cases hops : processOpsWith processOp pf.ops
          ⟨markVisited env { st.ctx with basePath := dirPath (resolvePath st.ctx p) }
            (resolvePath st.ctx p), st.effects⟩ with
      | error e =>
        rw [hops] at h2
        exact h2
      | ok v =>
        obtain ⟨secs, st2⟩ := v
        rw [hops] at h2
        dsimp only
        split
        · exact h2
        · exact h2

theorem effects_processOperation (fs : FileSystem) (env : Env) :
    ∀ (fuel : Nat) (op : Operation) (st : ExecSt),
      okExtension st.effects (resEffects (processOperation fs env fuel op st)) := by
  intro fuel
  induction fuel with
  | zero =>
    intro op st
    exact ⟨[], by simp [processOperation, resEffects], by simp⟩
  | succ n ih =>
    intro op st
    unfold processOperation
    split
    · exact ⟨[], by simp [resEffects], by simp⟩
    · split
      · exact effects_fileOp fs env _ st
      · exact effects_promptWith _ fs env _ st ih
      · exact effects_commandOp fs _ st
      · exact effects_textOp _ st

/-- C5: whenever any step of the engine fails (the result is an error),
nothing is written to the primary output stream or destination file — no
`wroteOutput` effect occurs; and the output-writing effect occurs exactly
when every operation succeeds. -/
theorem failureWritesNoOutput (fuel : Nat) (fs : FileSystem) (env : Env) (promptFile : String)
    (maxWords : Int) (style : String) :
    (∀ e, (processPromptFile fuel fs env promptFile maxWords style).fst = .error e →
        ∀ s, Effect.wroteOutput s ∉ (processPromptFile fuel fs env promptFile maxWords style).snd)
    ∧ (∀ out, (processPromptFile fuel fs env promptFile maxWords style).fst = .ok out →
        Effect.wroteOutput out ∈ (processPromptFile fuel fs env promptFile maxWords style).snd) := by
  cases hval : validatePromptFileStructure fs env fuel promptFile
      (newProcessingContext promptFile maxWords style) with
  | error e0 =>
    have hrun : processPromptFile fuel fs env promptFile maxWords style = (.error e0, []) := by
      simp only [processPromptFile, hval]
    rw [hrun]
    exact ⟨fun e he s => by simp, fun out hout => by simp at hout⟩
  | ok c0 =>
    cases hparse : parsePromptFile fs env promptFile with
    | error e1 =>
      have hrun : processPromptFile fuel fs env promptFile maxWords style = (.error e1, []) := by
        simp only [processPromptFile, hval, hparse]
      rw [hrun]
      exact ⟨fun e he s => by simp, fun out hout => by simp at hout⟩
    | ok pf =>
      cases hops : processOpsList fuel fs env pf.ops
          ⟨newProcessingContext promptFile maxWords style, []⟩ with
      | error pe =>
        obtain ⟨e2, effs⟩ := pe
        have hrun : processPromptFile fuel fs env promptFile maxWords style
            = (.error e2, effs) := by
          simp only [processPromptFile, hval, hparse, hops]
        rw [hrun]
        refine ⟨fun e he s hs => ?_, fun out hout => by simp at hout⟩
        have hfx := effects_opsWith (processOperation fs env fuel)
          (fun op st => effects_processOperation fs env fuel op st) pf.ops
          ⟨newProcessingContext promptFile maxWords style, []⟩
        rw [show processOpsWith (processOperation fs env fuel) pf.ops
              ⟨newProcessingContext promptFile maxWords style, []⟩
            = processOpsList fuel fs env pf.ops
              ⟨newProcessingContext promptFile maxWords style, []⟩ from rfl, hops] at hfx
        obtain ⟨new, hnew, hno⟩ := hfx
        simp only [resEffects, List.nil_append] at hnew
        subst hnew
        exact hno s hs
      | ok v =>
        obtain ⟨sections, stf⟩ := v
        have hrun : processPromptFile fuel fs env promptFile maxWords style
            = (.ok (compileOutput sections style),
               stf.effects ++ [Effect.wroteOutput (compileOutput sections style)]) := by
          simp only [processPromptFile, hval, hparse, hops]
        rw [hrun]
        refine ⟨fun e he => by simp at he, fun out hout => ?_⟩
        simp only [] at hout
        cases hout
        simp

/-- Witness for C5: a run failing at validation (missing root document)
writes nothing. -/
theorem failureWritesNoOutput_witness :
    Effect.wroteOutput "zzz" ∉ (processPromptFile 3 emptyFS envRootA "/x/missing.yml" 100
      "xml").snd :=
  (failureWritesNoOutput 3 emptyFS envRootA "/x/missing.yml" 100 "xml").1
    (.fileNotFound "/x/missing.yml") rfl "zzz"
